import Mathlib

/-!
# Escabelo key-value store: shallow embedding

A shallow embedding of the `escabelo` LSM-tree key-value store (Go), covering
the data model and operations referenced by the claims:

* `MemTable` (internal/engine/memtable.go): entries, put/get/delete/prefixScan,
  size accounting, `isFull`.
* `WAL` (wal.go): the entry type, the byte-level record format
  (`encodeWALEntry`) and `walReplay`, the byte-level replay parser.
* `SSTable` / `SSTManager` (sstable.go): segments as their on-file record
  sequences, the sparse index (modelled at record granularity: the Go code
  stores byte offsets and seeks; record positions are the same information for
  the seek-then-scan lookup), `flush`, `removeSSTable`, and the newest-first
  lookup `sstGet` / `getFromSST`.
* `Compactor` (compactor.go): `mergeSSTs` and `compactorCompact`.
* `Engine` (engine.go): `put`, `get`, `delete`, `prefixScan`, the stats
  counters, rotation, and WAL-replay recovery (`engineStart`).
* Server-side key validation (server/command.go): `isValidKey`.

Keys and values are byte sequences (`List Nat`); Go `len` on strings counts
bytes, and the key character class consists solely of one-byte UTF-8
characters, so the byte-level model agrees with the Go rune-level check.
`time.Now().UnixNano()` is modelled as a logical clock threaded through the
engine: each reading returns the current tick and advances it, matching the
spec's "monotonically-assigned" nanosecond timestamps.
-/

namespace Escabelo

/-- Byte sequences: keys, values and on-disk data. -/
abbrev Bytes := List Nat

/-- `Entry` from memtable.go: a key-value pair with timestamp and
tombstone flag. -/
structure Entry where
  key : Bytes
  value : Bytes
  timestamp : Nat
  deleted : Bool
deriving Repr, DecidableEq

/-- `MemTable` from memtable.go: the Go `map[string]*Entry` is modelled as an
association list with unique keys (Go map semantics: at most one entry per
key), plus the approximate byte-size counter and the configured bound. -/
structure MemTable where
  data : List Entry
  size : Int
  maxSize : Int
deriving Repr, DecidableEq

/-- `NewMemTable`. -/
def MemTable.new (maxSize : Int) : MemTable := ⟨[], 0, maxSize⟩

/-- Lookup of the entry stored under a key (the Go map access
`m.data[key]`). -/
def MemTable.findEntry (m : MemTable) (k : Bytes) : Option Entry :=
  m.data.find? (fun e => e.key == k)

/-- Go map assignment `data[k] = ent`: replace the entry under `k` if present
(keys are unique, so replacing the first occurrence is the map update),
otherwise add it. -/
def mapAssign (data : List Entry) (k : Bytes) (ent : Entry) : List Entry :=
  match data with
  | [] => [ent]
  | e :: rest => if e.key == k then ent :: rest else e :: mapAssign rest k ent

/-- `MemTable.Put`: stamps the timestamp (the `time.Now().UnixNano()` read is
passed in by the caller as `ts`), overwrites any prior record, and adjusts the
size counter by the difference. -/
def MemTable.put (m : MemTable) (k v : Bytes) (ts : Nat) : MemTable :=
  let entry : Entry := ⟨k, v, ts, false⟩
  let base : Int :=
    match m.findEntry k with
    | some old => m.size - ((old.key.length : Int) + (old.value.length : Int))
    | none => m.size
  { m with
    data := mapAssign m.data k entry
    size := base + ((k.length : Int) + (v.length : Int)) }

/-- `MemTable.Get`: an entry that is absent, or present but tombstoned,
reports not-found (Go returns `(nil, false)` in both cases). -/
def MemTable.get (m : MemTable) (k : Bytes) : Option Bytes :=
  match m.findEntry k with
  | none => none
  | some e => if e.deleted then none else some e.value

/-- `MemTable.Delete`: returns `false` when the key is absent or already a
tombstone; otherwise marks the existing record deleted with the fresh
timestamp `ts`.  Note: it never creates a new entry. -/
def MemTable.delete (m : MemTable) (k : Bytes) (ts : Nat) : MemTable × Bool :=
  match m.findEntry k with
  | none => (m, false)
  | some e =>
    if e.deleted then (m, false)
    else ({ m with data := mapAssign m.data k { e with deleted := true, timestamp := ts } }, true)

/-- Go `len(k) >= len(p) && k[:len(p)] == p`. -/
def bytesStartWith (k p : Bytes) : Bool := k.take p.length == p

/-- `MemTable.PrefixScan`: values of live (non-tombstoned) entries whose key
starts with the given prefix.  The Go map iteration order is arbitrary; the
association-list order stands in for one such order, and every property proved
about the result is order-insensitive. -/
def MemTable.prefixScan (m : MemTable) (p : Bytes) : List Bytes :=
  (m.data.filter (fun e => !e.deleted && bytesStartWith e.key p)).map (fun e => e.value)

/-- `MemTable.Keys`: all non-deleted keys. -/
def MemTable.keysOf (m : MemTable) : List Bytes :=
  (m.data.filter (fun e => !e.deleted)).map (fun e => e.key)

/-- `MemTable.IsFull`: `size >= maxSize`. -/
def MemTable.isFull (m : MemTable) : Bool := m.maxSize ≤ m.size

/-- `MemTable.Entries`: all entries, tombstones included. -/
def MemTable.entries (m : MemTable) : List Entry := m.data

/-- `WALEntry` from wal.go (`OpType` 1 = put, 2 = delete). -/
structure WALEntry where
  opType : Nat
  key : Bytes
  value : Bytes
  timestamp : Nat
deriving Repr, DecidableEq

/-- Little-endian encoding of `n` into `w` bytes (Go `binary.LittleEndian`). -/
def leBytes : Nat → Nat → Bytes
  | 0, _ => []
  | w + 1, n => (n % 256) :: leBytes w (n / 256)

/-- Value of a little-endian byte sequence. -/
def leVal (bs : Bytes) : Nat := bs.foldr (fun b acc => acc * 256 + b) 0

/-- `WAL.Append` record format:
`opType (1) | timestamp (8 LE) | keyLen (4 LE) | key | valueLen (4 LE) | value`. -/
def encodeWALEntry (e : WALEntry) : Bytes :=
  e.opType :: (leBytes 8 e.timestamp ++ leBytes 4 e.key.length ++ e.key
    ++ leBytes 4 e.value.length ++ e.value)

/-- Read exactly `n` bytes; fails when fewer are available (Go's
`io.ReadFull` / `binary.Read` returning `io.EOF` or `io.ErrUnexpectedEOF`,
both of which `WAL.Replay` surfaces as errors mid-record). -/
def readBytes (n : Nat) (bs : Bytes) : Option (Bytes × Bytes) :=
  if bs.length < n then none else some (bs.take n, bs.drop n)

/-- The body of one WAL record after its opType byte has been consumed.
`none` models a mid-record truncation: `WAL.Replay` turns it into an error. -/
def parseRecordBody (op : Nat) (bs : Bytes) : Option (WALEntry × Bytes) :=
  match readBytes 8 bs with
  | none => none
  | some (tsB, r1) =>
    match readBytes 4 r1 with
    | none => none
    | some (klB, r2) =>
      match readBytes (leVal klB) r2 with
      | none => none
      | some (keyB, r3) =>
        match readBytes 4 r3 with
        | none => none
        | some (vlB, r4) =>
          match readBytes (leVal vlB) r4 with
          | none => none
          | some (valB, r5) => some (⟨op, keyB, valB, leVal tsB⟩, r5)

/-- The `WAL.Replay` loop.  An `io.EOF` on the opType read (i.e. the byte
stream is exhausted at a record boundary) ends the loop; any failure inside a
record is returned as an error, exactly as in the Go code, where only the
opType read checks for `io.EOF`.  Each record consumes at least one byte, so
`fuel := bs.length` never runs out on the recursive path. -/
def walReplayAux : Nat → Bytes → List WALEntry → Except Unit (List WALEntry)
  | _, [], acc => .ok acc.reverse
  | 0, _ :: _, _ => .error ()
  | fuel + 1, op :: rest, acc =>
    match parseRecordBody op rest with
    | none => .error ()
    | some (e, tail) => walReplayAux fuel tail (e :: acc)

/-- `WAL.Replay`. -/
def walReplay (bs : Bytes) : Except Unit (List WALEntry) :=
  walReplayAux bs.length bs []

/-- Go string comparison `a < b` is lexicographic on bytes. -/
def bytesLt : Bytes → Bytes → Bool
  | [], [] => false
  | [], _ :: _ => true
  | _ :: _, [] => false
  | a :: as, b :: bs => if a < b then true else if b < a then false else bytesLt as bs

/-- Go string comparison `a <= b`. -/
def bytesLe (a b : Bytes) : Bool := bytesLt a b || a == b

/-- `SSTable` from sstable.go: a segment's file is the sequence of its
serialized records (`entries`, in file order), together with the in-memory
metadata: id, min/max key, and the sparse index.  The Go index maps keys to
byte offsets and the lookup seeks before scanning; positions in the record
sequence carry the same information, so the index here maps keys to record
positions. -/
structure SSTable where
  id : Nat
  entries : List Entry
  minKey : Bytes
  maxKey : Bytes
  sparse : List (Bytes × Nat)
deriving Repr, DecidableEq

/-- The scan inside `getFromSST`: from the seek position, stop with the
value (or, for a tombstone, with not-found) at the first record whose key
equals the query, and break as soon as a key greater than the query is seen.
A tombstone hit and a miss are both collapsed to `none`, exactly as the Go
function returns `(nil, false, nil)` in both cases. -/
def scanEntries (key : Bytes) : List Entry → Option Bytes
  | [] => none
  | e :: rest =>
    if e.key == key then (if e.deleted then none else some e.value)
    else if bytesLt key e.key then none
    else scanEntries key rest

/-- `getFromSST`: pick the greatest sparse-index position whose key is ≤ the
query (starting from 0, as the Go `startOffset` does), then scan forward. -/
def getFromSST (sst : SSTable) (key : Bytes) : Option Bytes :=
  let start := sst.sparse.foldl
    (fun acc p => if bytesLe p.1 key && acc < p.2 then p.2 else acc) 0
  scanEntries key (sst.entries.drop start)

/-- `SSTManager.Get`: iterate the segments newest first, skip those whose
key range excludes the query, and return the first hit.  A tombstone inside a
segment is indistinguishable from a miss here (see `scanEntries`), so the
iteration continues into older segments past it. -/
def sstGet : List SSTable → Bytes → Option Bytes
  | [], _ => none
  | sst :: rest, k =>
    if bytesLt k sst.minKey || bytesLt sst.maxKey k then sstGet rest k
    else
      match getFromSST sst k with
      | some v => some v
      | none => sstGet rest k

/-- `SSTManager`: the registry of segments, newest first, plus the next id. -/
structure SSTManager where
  sstables : List SSTable
  nextId : Nat
deriving Repr, DecidableEq

/-- Insertion into a key-sorted list, for `sort.Slice` by key. -/
def insertByKey (e : Entry) : List Entry → List Entry
  | [] => [e]
  | x :: xs => if bytesLt e.key x.key then e :: x :: xs else x :: insertByKey e xs

/-- `sort.Slice(entries, ...Key < ...Key)`. -/
def sortByKey (l : List Entry) : List Entry := l.foldr insertByKey []

/-- The sparse index built during `Flush`: every 10th record. -/
def buildSparse (l : List Entry) : List (Bytes × Nat) :=
  (l.enum.filter (fun p => p.1 % 10 == 0)).map (fun p => (p.2.key, p.1))

/-- Key of the last record (`entries[len(entries)-1].Key` of the sorted
batch). -/
def lastKey (e : Entry) (rest : List Entry) : Bytes := (rest.getLastD e).key

/-- `SSTManager.Flush`: an empty batch is a no-op (no segment is created and
the id counter does not move); otherwise sort by key, assign the next id,
write the new segment and insert it at the FRONT (newest position) of the
registry. -/
def SSTManager.flush (m : SSTManager) (entries : List Entry) : SSTManager :=
  match sortByKey entries with
  | [] => m
  | e :: rest =>
    let sorted := e :: rest
    let sst : SSTable :=
      { id := m.nextId
        entries := sorted
        minKey := e.key
        maxKey := lastKey e rest
        sparse := buildSparse sorted }
    { sstables := sst :: m.sstables, nextId := m.nextId + 1 }

/-- `SSTManager.RemoveSSTable`: drop the first registry element with the
matching id. -/
def SSTManager.removeSSTable (m : SSTManager) (sst : SSTable) : SSTManager :=
  { m with sstables := m.sstables.eraseP (fun s => s.id == sst.id) }

/-- The `entryMap` update inside `mergeSSTs`: keep, per key, the record with
the highest timestamp (a later record replaces an earlier one only when its
timestamp is strictly greater). -/
def mergeFold (acc : List Entry) (e : Entry) : List Entry :=
  match acc.find? (fun x => x.key == e.key) with
  | none => acc ++ [e]
  | some x => if x.timestamp < e.timestamp then mapAssign acc e.key e else acc

/-- `Compactor.mergeSSTs`: read all records of the given segments (file
order), fold them into the per-key highest-timestamp map, drop tombstones,
and sort by key.  `readAllEntries` on a segment yields exactly its record
sequence. -/
def mergeSSTs (ssts : List SSTable) : List Entry :=
  let all := (ssts.map (fun s => s.entries)).flatten
  let merged := all.foldl mergeFold []
  sortByKey (merged.filter (fun e => !e.deleted))

/-- `Compactor.compact`: a no-op with at most 4 segments; otherwise merge the
4 oldest (the tail of the newest-first list), flush the merged batch as a new
segment, and remove the 4 sources. -/
def compactorCompact (m : SSTManager) : SSTManager :=
  if m.sstables.length ≤ 4 then m
  else
    let toMerge := m.sstables.drop (m.sstables.length - 4)
    let merged := mergeSSTs toMerge
    let m1 := m.flush merged
    toMerge.foldl SSTManager.removeSSTable m1

/-- `Engine` from engine.go, with `time.Now().UnixNano()` modelled by the
monotone `clock` field: each reading yields the current tick and advances
it. -/
structure Engine where
  memtable : MemTable
  immutables : List MemTable
  ssts : List SSTable
  wal : List WALEntry
  writes : Nat
  reads : Nat
  deletes : Nat
  clock : Nat
  maxSize : Int
deriving Repr, DecidableEq

/-- A freshly created engine (empty data directory). -/
def Engine.new (maxSize : Int) : Engine :=
  ⟨MemTable.new maxSize, [], [], [], 0, 0, 0, 0, maxSize⟩

/-- `rotateMemTable`: append the active MemStore to the tail of the immutable
queue and allocate a fresh one. -/
def Engine.rotate (e : Engine) : Engine :=
  { e with
    immutables := e.immutables ++ [e.memtable]
    memtable := MemTable.new e.maxSize }

/-- `Engine.Put`: reject keys over `100*1024` bytes; otherwise append the put
record (with one clock reading) to the WAL, apply to the active MemStore
(which stamps a second, later clock reading), bump the writes counter, and
rotate when the MemStore is full.  On the error path nothing changes: the
original state is returned alongside the message. -/
def Engine.put (e : Engine) (k v : Bytes) : Option String × Engine :=
  if k.length > 102400 then (some "key too large", e)
  else
    let w : WALEntry := ⟨1, k, v, e.clock⟩
    let e1 := { e with wal := e.wal ++ [w], clock := e.clock + 1 }
    let e2 := { e1 with
      memtable := e1.memtable.put k v e1.clock
      clock := e1.clock + 1
      writes := e1.writes + 1 }
    if e2.memtable.isFull then (none, e2.rotate) else (none, e2)

/-- The loop over the immutable MemStores in `Engine.Get`.  The Go code
ranges over the slice from index 0, i.e. OLDEST first (rotation appends at
the tail). -/
def findImm : List MemTable → Bytes → Option Bytes
  | [], _ => none
  | mt :: rest, k =>
    match mt.get k with
    | some v => some v
    | none => findImm rest k

/-- The lookup path of `Engine.Get`: the active MemStore, then the immutable
MemStores, then the segments.  Each layer reports a tombstone as a plain
miss, so the lookup falls through to the next layer. -/
def Engine.lookup (e : Engine) (k : Bytes) : Option Bytes :=
  match e.memtable.get k with
  | some v => some v
  | none =>
    match findImm e.immutables k with
    | some v => some v
    | none => sstGet e.ssts k

/-- `Engine.Get`: bump the reads counter (its only state change) and run the
layered lookup. -/
def Engine.get (e : Engine) (k : Bytes) : Option Bytes × Engine :=
  (e.lookup k, { e with reads := e.reads + 1 })

/-- `Engine.Delete`: probe `Get` first (this bumps the reads counter); when
the key is absent return `false` with no further state change.  Otherwise
append a delete record to the WAL, call `MemTable.Delete` on the active
MemStore (which flips an existing entry but never creates one), bump the
deletes counter, and rotate when full.  The boolean returned is
`MemTable.Delete`'s result. -/
def Engine.delete (e : Engine) (k : Bytes) : Bool × Engine :=
  let r := e.get k
  match r.1 with
  | none => (false, r.2)
  | some _ =>
    let e1 := r.2
    let w : WALEntry := ⟨2, k, [], e1.clock⟩
    let e2 := { e1 with wal := e1.wal ++ [w], clock := e1.clock + 1 }
    let md := e2.memtable.delete k e2.clock
    let e3 := { e2 with
      memtable := md.1
      clock := if md.2 then e2.clock + 1 else e2.clock
      deletes := e2.deletes + 1 }
    if e3.memtable.isFull then (md.2, e3.rotate) else (md.2, e3)

/-- The `valueMap[string(value)] = value` insertion of `Engine.PrefixScan`:
keyed by value content, so inserting an already-present value changes
nothing. -/
def insertVal (acc : List Bytes) (v : Bytes) : List Bytes :=
  if v ∈ acc then acc else acc ++ [v]

/-- The values `Engine.PrefixScan` collects before deduplication: the active
MemStore's matches followed by each immutable MemStore's matches. -/
def collectedVals (e : Engine) (p : Bytes) : List Bytes :=
  e.memtable.prefixScan p ++ (e.immutables.map (fun mt => mt.prefixScan p)).flatten

/-- `Engine.PrefixScan`: every collected value is inserted into a map keyed
by its byte content; the result is the map's values.  Segments are not
consulted. -/
def Engine.prefixScan (e : Engine) (p : Bytes) : List Bytes :=
  (collectedVals e p).foldl insertVal []

/-- One step of `Engine.recover`'s replay loop: puts and deletes are applied
straight to the active MemStore (no WAL re-append, no stats, no rotation);
each application takes fresh clock readings exactly where the Go code calls
`time.Now()`. -/
def Engine.recoverApply (e : Engine) (entry : WALEntry) : Engine :=
  if entry.opType == 1 then
    { e with memtable := e.memtable.put entry.key entry.value e.clock, clock := e.clock + 1 }
  else if entry.opType == 2 then
    let md := e.memtable.delete entry.key e.clock
    { e with memtable := md.1, clock := if md.2 then e.clock + 1 else e.clock }
  else e

/-- `NewEngine` + `Engine.recover` on a given WAL byte log: replay the log
and apply every entry to a fresh engine.  A replay error aborts startup
(`NewEngine` returns the error), modelled by propagating it. -/
def engineStart (log : Bytes) (maxSize : Int) : Except Unit Engine :=
  match walReplay log with
  | .error u => .error u
  | .ok entries => .ok (entries.foldl Engine.recoverApply (Engine.new maxSize))

/-- `isValidKey` from server/command.go, at byte level: the allowed
characters `[A-Za-z0-9.\-:_]` are exactly the bytes below (all one-byte
UTF-8), and any byte outside this set — ASCII or not — makes the Go
rune-level check reject too. -/
def allowedByte (c : Nat) : Bool :=
  (97 ≤ c && c ≤ 122) || (65 ≤ c && c ≤ 90) || (48 ≤ c && c ≤ 57)
    || c == 46 || c == 45 || c == 58 || c == 95

/-- `isValidKey`: nonempty and every character in the allowed class. -/
def isValidKey (k : Bytes) : Bool := !k.isEmpty && k.all allowedByte

/-! ## Supporting lemmas -/

/-- After a map assignment under key `k` with an entry whose key is `k`, the
map lookup under `k` finds exactly that entry. -/
lemma find?_mapAssign_self (data : List Entry) (k : Bytes) (ent : Entry)
    (hk : ent.key = k) :
    (mapAssign data k ent).find? (fun e => e.key == k) = some ent := by
  induction data with
  | nil => simp [mapAssign, List.find?, hk]
  | cons e rest ih =>
    by_cases h : e.key = k
    · simp [mapAssign, h, List.find?, hk]
    · simp only [mapAssign]
      rw [if_neg (by simpa using h)]
      simp only [List.find?]
      rw [show (e.key == k) = false by simpa using h]
      exact ih

/-- `MemTable.Put` leaves the key bound to the freshly stamped record. -/
lemma findEntry_put_self (m : MemTable) (k v : Bytes) (ts : Nat) :
    (m.put k v ts).findEntry k = some ⟨k, v, ts, false⟩ := by
  unfold MemTable.put MemTable.findEntry
  exact find?_mapAssign_self m.data k ⟨k, v, ts, false⟩ rfl

/-- `Engine.Get` changes the state only by bumping the reads counter. -/
lemma get_snd (e : Engine) (k : Bytes) :
    (e.get k).2 = { e with reads := e.reads + 1 } := rfl

/-- Membership in the value-content map after one insertion. -/
lemma insertVal_mem (acc : List Bytes) (v w : Bytes) :
    w ∈ insertVal acc v ↔ w ∈ acc ∨ w = v := by
  unfold insertVal
  by_cases h : v ∈ acc
  · rw [if_pos h]
    constructor
    · exact Or.inl
    · rintro (hw | rfl)
      · exact hw
      · exact h
  · rw [if_neg h]
    simp

/-- One insertion into the value-content map preserves distinctness. -/
lemma insertVal_nodup (acc : List Bytes) (v : Bytes) (h : acc.Nodup) :
    (insertVal acc v).Nodup := by
  unfold insertVal
  by_cases hv : v ∈ acc
  · rwa [if_pos hv]
  · rw [if_neg hv]
    simpa [List.nodup_append, h] using hv

/-- Folding insertions preserves distinctness. -/
lemma foldl_insertVal_nodup (l : List Bytes) (acc : List Bytes) (h : acc.Nodup) :
    (l.foldl insertVal acc).Nodup := by
  induction l generalizing acc with
  | nil => exact h
  | cons v rest ih => exact ih (insertVal acc v) (insertVal_nodup acc v h)

/-- Folding insertions preserves exactly the set of collected values. -/
lemma foldl_insertVal_mem (l : List Bytes) (acc : List Bytes) (w : Bytes) :
    w ∈ l.foldl insertVal acc ↔ w ∈ acc ∨ w ∈ l := by
  induction l generalizing acc with
  | nil => simp
  | cons v rest ih =>
    simp only [List.foldl_cons, ih, insertVal_mem, List.mem_cons]
    tauto

/-! ## Concrete runs used by the claim theorems -/

/-- C1 run: a MemStore limit of 4 bytes makes the first put rotate.  After
`put k v1` (rotates), `put k v2`, `delete k`, the key's most recent record is
the tombstone in the active MemStore, while `v1` survives in the immutable
MemStore. -/
def c1Run : Engine :=
  (((((Engine.new 4).put [107] [0, 0, 0]).2).put [107] [1]).2.delete [107]).2

/-- C2 run: `put k v1` fills and rotates the MemStore, so the only version of
`k` lives in an immutable MemStore and the active MemStore is empty. -/
def c2Run : Engine := ((Engine.new 4).put [107] [0, 0, 0]).2

/-- A well-formed WAL put record used by the C3 theorem. -/
def c3Rec : WALEntry := ⟨1, [107], [118], 5⟩

/-- C4 run: from empty (MemStore limit large enough that nothing rotates),
`write k|v`, `read k`, `read k`, `delete k`. -/
def c4Run : Engine :=
  (((((Engine.new 1000000).put [107] [118]).2.get [107]).2.get [107]).2.delete [107]).2

/-- A single-record segment for the C7 run: id `i`, key `k`, value `[i]`,
timestamp `i` (higher id ⇔ more recent write cohort). -/
def c7Seg (i : Nat) : SSTable := ⟨i, [⟨[107], [i], i, false⟩], [107], [107], [([107], 0)]⟩

/-- C7 run: five segments, newest first, all containing key `k` with
timestamps 5 > 4 > 3 > 2 > 1. -/
def c7Mgr : SSTManager := ⟨[c7Seg 5, c7Seg 4, c7Seg 3, c7Seg 2, c7Seg 1], 6⟩

/-! ## Claim theorems -/

/-- Claim C1 (code bug): a tombstone is NOT authoritative.  In the run where
key `k = [107]` was put (value `[0,0,0]`, rotated to an immutable MemStore),
put again (value `[1]`), and then deleted, the active MemStore holds the
key's most recent record — a tombstone with timestamp 5, newer than the
immutable entry's timestamp 1 — yet `get` does not stop at it: it falls
through and returns the older value `[0,0,0]` from the immutable MemStore
instead of reporting the key absent. -/
theorem c1_tombstone_not_authoritative :
    (c1Run.get [107]).1 = some [0, 0, 0] ∧
    c1Run.memtable.findEntry [107] = some ⟨[107], [1], 5, true⟩ ∧
    c1Run.immutables.map (fun m => m.findEntry [107])
      = [some ⟨[107], [0, 0, 0], 1, false⟩] := by
  decide

/-- Claim C2 (code bug): deleting a key whose value `get` currently returns
from an immutable MemStore appends a delete record to the WAL (opTypes
become `[1, 2]`) but creates no tombstone in the active MemStore
(`MemTable.Delete` only flips existing entries) and returns `false`, so the
client sees `error` and the key is still readable afterwards. -/
theorem c2_delete_visible_key_fails :
    (c2Run.get [107]).1 = some [0, 0, 0] ∧
    (c2Run.delete [107]).1 = false ∧
    (c2Run.delete [107]).2.wal.map WALEntry.opType = [1, 2] ∧
    (c2Run.delete [107]).2.memtable.findEntry [107] = none ∧
    ((c2Run.delete [107]).2.get [107]).1 = some [0, 0, 0] := by
  decide

/-- Claim C3 (code bug): a WAL whose trailing record is truncated is NOT
treated as end-of-log.  The log consisting of one well-formed put record
followed by a single dangling opType byte makes `Replay` return an error
(the timestamp read fails mid-record, and only the opType read tolerates
end-of-input), and recovery — hence engine startup — fails, instead of
yielding the preceding record and starting. -/
theorem c3_truncated_tail_is_error :
    walReplay (encodeWALEntry c3Rec) = Except.ok [c3Rec] ∧
    walReplay (encodeWALEntry c3Rec ++ [1]) = Except.error () ∧
    engineStart (encodeWALEntry c3Rec ++ [1]) 1000 = Except.error () := by
  exact ⟨rfl, rfl, rfl⟩

/-- Claim C4 (counterexample): after `write k|v; read k; read k; delete k`
from empty, the reads counter is 3, not 2 — `Engine.Delete` probes existence
through `Engine.Get`, which increments the reads counter. -/
theorem c4_reads_counter_counterexample :
    c4Run.writes = 1 ∧ c4Run.deletes = 1 ∧ c4Run.reads = 3 ∧ ¬ c4Run.reads = 2 := by
  decide

/-- Claim C4 (amended): the sequence `write k|v; read k; read k; delete k`
from empty leaves the counters at writes=1, reads=3, deletes=1: the delete's
internal existence probe performs a get that bumps the reads counter. -/
theorem c4_counters_amended :
    c4Run.writes = 1 ∧ c4Run.reads = 3 ∧ c4Run.deletes = 1 := by
  decide

/-- Claim C7 (code bug): compaction of the 4 oldest segments registers the
merged segment at the NEWEST position of the registry.  With five segments
all containing key `k` (timestamps 1..5, segment 5 newest holding value
`[5]`), `get` returns `[5]` before compaction; after compaction the registry
is `[merged(id 6), 5]` and `get` returns `[4]` — the stale value merged from
the older cohort now shadows the newer segment 5, so the latest value is no
longer readable (the segment count does decrease by 3, from 5 to 2). -/
theorem c7_compaction_shadows_newer_segment :
    sstGet c7Mgr.sstables [107] = some [5] ∧
    (compactorCompact c7Mgr).sstables.map SSTable.id = [6, 5] ∧
    sstGet (compactorCompact c7Mgr).sstables [107] = some [4] ∧
    (compactorCompact c7Mgr).sstables.length = c7Mgr.sstables.length - 3 := by
  decide

/-- Claim C5 (counterexample): the engine's put does NOT validate the key's
character class.  The key `[32]` (a space, outside `[A-Za-z0-9.\-:_]`) is
accepted by `Engine.Put` — no error, and the entry is stored. -/
theorem c5_engine_put_accepts_bad_class :
    allowedByte 32 = false ∧
    ((Engine.new 1000).put [32] [118]).1 = none ∧
    ((Engine.new 1000).put [32] [118]).2.memtable.findEntry [32]
      = some ⟨[32], [118], 1, false⟩ := by
  decide

/-- Claim C5 (amended): the character-class validation lives in the TCP
front-end, not the engine: for every key containing a character outside
`[A-Za-z0-9.\-:_]` the server-side `isValidKey` rejects (so `ParseCommand`
refuses the command before the engine is invoked), while `Engine.Put` itself
checks only the 100 KiB size bound and accepts any such key within it. -/
theorem c5_class_check_is_server_side (k v : Bytes) (e : Engine)
    (h : ∃ c ∈ k, allowedByte c = false) :
    isValidKey k = false ∧ (k.length ≤ 102400 → (e.put k v).1 = none) := by
  constructor
  · obtain ⟨c, hc, hcf⟩ := h
    have hall : k.all allowedByte = false :=
      List.all_eq_false.mpr ⟨c, hc, by simp [hcf]⟩
    simp [isValidKey, hall]
  · intro hlen
    simp only [Engine.put]
    rw [if_neg (by omega : ¬ k.length > 102400)]
    split <;> rfl

/-- Witness for `c5_class_check_is_server_side` at the concrete key `[32]`. -/
theorem c5_class_check_witness :
    isValidKey [32] = false ∧
    (([32] : Bytes).length ≤ 102400 → ((Engine.new 1000).put [32] [118]).1 = none) :=
  c5_class_check_is_server_side [32] [118] (Engine.new 1000) ⟨32, by decide, by decide⟩

/-- Claim C6 (counterexample): on a fresh engine, a put assigns the WAL
record timestamp 0 but stamps the MemStore entry with timestamp 1 — the two
clock readings differ, so the timestamps are not equal. -/
theorem c6_timestamps_differ :
    ((Engine.new 1000).put [107] [118]).2.wal.map WALEntry.timestamp = [0] ∧
    ((Engine.new 1000).put [107] [118]).2.memtable.findEntry [107]
      = some ⟨[107], [118], 1, false⟩ ∧ (0 : Nat) ≠ 1 := by
  decide

/-- Claim C6 (amended): for every put that passes the size check, the WAL
record's timestamp comes from an earlier clock reading than the MemStore
entry's timestamp: the appended WAL record carries a strictly SMALLER
timestamp than the record stamped into the MemStore (which, if the put
triggered rotation, now sits in the last immutable MemStore). -/
theorem c6_wal_ts_strictly_earlier (e : Engine) (k v : Bytes)
    (h : k.length ≤ 102400) :
    ∃ w ent,
      (e.put k v).2.wal = e.wal ++ [w] ∧
      w.opType = 1 ∧ w.key = k ∧ w.value = v ∧
      ent.key = k ∧ ent.value = v ∧ ent.deleted = false ∧
      ((e.put k v).2.memtable.findEntry k = some ent ∨
        ∃ m, (e.put k v).2.immutables.getLast? = some m ∧ m.findEntry k = some ent) ∧
      w.timestamp < ent.timestamp := by
  have h' : ¬ k.length > 102400 := by omega
  refine ⟨⟨1, k, v, e.clock⟩, ⟨k, v, e.clock + 1, false⟩,
    ?_, rfl, rfl, rfl, rfl, rfl, rfl, ?_, Nat.lt_succ_self _⟩
  · simp only [Engine.put]
    rw [if_neg h']
    split <;> rfl
  · simp only [Engine.put]
    rw [if_neg h']
    split
    · exact Or.inr ⟨_, List.getLast?_concat _, findEntry_put_self _ _ _ _⟩
    · exact Or.inl (findEntry_put_self _ _ _ _)

/-- Witness for `c6_wal_ts_strictly_earlier` on a fresh engine. -/
theorem c6_wal_ts_witness :
    ∃ w ent,
      ((Engine.new 1000).put [107] [118]).2.wal = (Engine.new 1000).wal ++ [w] ∧
      w.opType = 1 ∧ w.key = [107] ∧ w.value = [118] ∧
      ent.key = [107] ∧ ent.value = [118] ∧ ent.deleted = false ∧
      (((Engine.new 1000).put [107] [118]).2.memtable.findEntry [107] = some ent ∨
        ∃ m, ((Engine.new 1000).put [107] [118]).2.immutables.getLast? = some m ∧
          m.findEntry [107] = some ent) ∧
      w.timestamp < ent.timestamp :=
  c6_wal_ts_strictly_earlier (Engine.new 1000) [107] [118] (by decide)

/-- Claim C8 (confirmed): deleting a key on which `get` reports absent
returns `false` and changes no state beyond the probe's reads-counter bump:
the WAL is untouched (no record appended, so its size is unchanged), the
active MemStore is untouched (no tombstone), and the immutable MemStores,
segments and deletes counter are all unchanged. -/
theorem c8_delete_absent_is_noop (e : Engine) (k : Bytes)
    (h : (e.get k).1 = none) :
    (e.delete k).1 = false ∧
    (e.delete k).2.wal = e.wal ∧
    (e.delete k).2.memtable = e.memtable ∧
    (e.delete k).2.immutables = e.immutables ∧
    (e.delete k).2.ssts = e.ssts ∧
    (e.delete k).2.deletes = e.deletes := by
  have hd : e.delete k = (false, (e.get k).2) := by
    simp only [Engine.delete, h]
  rw [hd, get_snd]
  exact ⟨rfl, rfl, rfl, rfl, rfl, rfl⟩

/-- Witness for `c8_delete_absent_is_noop` on a fresh engine. -/
theorem c8_delete_absent_witness :
    ((Engine.new 1000).delete [107]).1 = false ∧
    ((Engine.new 1000).delete [107]).2.wal = (Engine.new 1000).wal ∧
    ((Engine.new 1000).delete [107]).2.memtable = (Engine.new 1000).memtable ∧
    ((Engine.new 1000).delete [107]).2.immutables = (Engine.new 1000).immutables ∧
    ((Engine.new 1000).delete [107]).2.ssts = (Engine.new 1000).ssts ∧
    ((Engine.new 1000).delete [107]).2.deletes = (Engine.new 1000).deletes :=
  c8_delete_absent_is_noop (Engine.new 1000) [107] (by decide)

/-- Claim C9 (confirmed): a put whose key is exactly 102400 bytes succeeds,
while a put whose key is 102401 bytes fails with the key-too-large error and
returns the engine state UNCHANGED — no WAL record, no MemStore mutation. -/
theorem c9_key_size_boundary (e : Engine) (k k' v v' : Bytes)
    (h : k.length = 102400) (h' : k'.length = 102401) :
    (e.put k v).1 = none ∧ e.put k' v' = (some "key too large", e) := by
  constructor
  · simp only [Engine.put]
    rw [if_neg (by omega : ¬ k.length > 102400)]
    split <;> rfl
  · simp only [Engine.put]
    rw [if_pos (by omega : k'.length > 102400)]

/-- Witness for `c9_key_size_boundary` with concrete keys of 102400 and
102401 bytes. -/
theorem c9_key_size_witness :
    ((Engine.new 1000).put (List.replicate 102400 97) [118]).1 = none ∧
    (Engine.new 1000).put (List.replicate 102401 97) [118]
      = (some "key too large", Engine.new 1000) :=
  c9_key_size_boundary (Engine.new 1000) _ _ [118] [118]
    (List.length_replicate 102400 97) (List.length_replicate 102401 97)

/-- Membership in a MemStore's prefix-scan output. -/
lemma mem_prefixScan_iff (m : MemTable) (p v : Bytes) :
    v ∈ m.prefixScan p ↔
      ∃ ent ∈ m.data, ent.deleted = false ∧ bytesStartWith ent.key p = true ∧
        ent.value = v := by
  simp only [MemTable.prefixScan, List.mem_map, List.mem_filter]
  constructor
  · rintro ⟨ent, ⟨hmem, hcond⟩, rfl⟩
    simp only [Bool.and_eq_true, Bool.not_eq_true'] at hcond
    exact ⟨ent, hmem, hcond.1, hcond.2, rfl⟩
  · rintro ⟨ent, hmem, hdel, hpref, rfl⟩
    exact ⟨ent, ⟨hmem, by simp [hdel, hpref]⟩, rfl⟩

/-- Claim C10 (confirmed): `PrefixScan` deduplicates by value content.  Every
value occurs at most once in the output, and a value is in the output exactly
when some live (non-tombstoned) entry whose key starts with the prefix —
in the active MemStore or in any immutable MemStore — is bound to it; in
particular, two distinct keys bound to byte-identical values contribute one
occurrence. -/
theorem c10_prefix_scan_dedups_by_value (e : Engine) (p v : Bytes) :
    (e.prefixScan p).Nodup ∧
    (v ∈ e.prefixScan p ↔
      ((∃ ent ∈ e.memtable.data, ent.deleted = false ∧
          bytesStartWith ent.key p = true ∧ ent.value = v) ∨
        ∃ mt ∈ e.immutables, ∃ ent ∈ mt.data, ent.deleted = false ∧
          bytesStartWith ent.key p = true ∧ ent.value = v)) := by
  constructor
  · exact foldl_insertVal_nodup (collectedVals e p) [] List.nodup_nil
  · rw [show e.prefixScan p = (collectedVals e p).foldl insertVal [] from rfl,
      foldl_insertVal_mem]
    simp only [List.not_mem_nil, false_or, collectedVals, List.mem_append,
      List.mem_flatten, List.mem_map, mem_prefixScan_iff]
    constructor
    · rintro (h | ⟨l, ⟨mt, hmt, rfl⟩, hv⟩)
      · exact Or.inl h
      · exact Or.inr ⟨mt, hmt, (mem_prefixScan_iff mt p v).mp hv⟩
    · rintro (h | ⟨mt, hmt, hent⟩)
      · exact Or.inl h
      · exact Or.inr ⟨mt.prefixScan p, ⟨mt, hmt, rfl⟩,
          (mem_prefixScan_iff mt p v).mpr hent⟩

end Escabelo
